import Mathlib

/-!
Verification development for the AI Cashflow Copilot analytical pipeline
(categorization, recurring-pattern detection, scenario adjustment, forecasting).

The Python source operates on pandas DataFrames whose `date` column holds
pandas Timestamps (midnight-aligned calendar days), whose `amount` column holds
floats that we model exactly as rationals, and whose `description` column is an
object column where a missing value (NaN) is modelled here as `none`.

Dates are modelled as Gregorian calendar triples (year, month, day); the
absolute instant of a Timestamp is recovered by `toDays` (day count from a
fixed epoch), which is what Timestamp comparison, subtraction and
`pd.Timedelta(days=n)` arithmetic act on.
-/

set_option maxRecDepth 8000

namespace Copilot

/-- Gregorian calendar date: year `y`, month `m` (1..12), day `d` (1..31). -/
structure Date where
  y : ℕ
  m : ℕ
  d : ℕ
  deriving DecidableEq

/-- Leap-year test, as in Python's `calendar.isleap`. -/
def leapYear (y : ℕ) : Prop := y % 4 = 0 ∧ (y % 100 ≠ 0 ∨ y % 400 = 0)

instance : DecidablePred leapYear := fun y => by unfold leapYear; infer_instance

/-- Number of days in a month, as `calendar.monthrange(y, m)[1]`. -/
def daysInMonth (y m : ℕ) : ℕ :=
  if m = 2 then (if leapYear y then 29 else 28)
  else if m = 4 ∨ m = 6 ∨ m = 9 ∨ m = 11 then 30
  else 31

/-- A well-formed calendar date (every pandas Timestamp denotes one). -/
def ValidDate (dt : Date) : Prop :=
  1 ≤ dt.y ∧ 1 ≤ dt.m ∧ dt.m ≤ 12 ∧ 1 ≤ dt.d ∧ dt.d ≤ daysInMonth dt.y dt.m

instance : DecidablePred ValidDate := fun dt => by unfold ValidDate; infer_instance

/-- Days contributed by the months strictly before month `m` of year `y`. -/
def daysBeforeMonth (y m : ℕ) : ℕ :=
  ((List.range (m - 1)).map (fun i => daysInMonth y (i + 1))).sum

/-- Days contributed by the years strictly before year `y` (year numbering from 1). -/
def daysBeforeYear (y : ℕ) : ℕ :=
  365 * (y - 1) + (y - 1) / 4 + (y - 1) / 400 - (y - 1) / 100

/-- Absolute day number of a date: the instant of the pandas Timestamp. -/
def toDays (dt : Date) : ℕ :=
  daysBeforeYear dt.y + daysBeforeMonth dt.y dt.m + (dt.d - 1)

/-- The next calendar day (one `pd.Timedelta(days=1)` step). -/
def nextDay (dt : Date) : Date :=
  if dt.d < daysInMonth dt.y dt.m then ⟨dt.y, dt.m, dt.d + 1⟩
  else if dt.m < 12 then ⟨dt.y, dt.m + 1, 1⟩
  else ⟨dt.y + 1, 1, 1⟩

/-! String utilities.

Descriptions in scope are ASCII text, so Python's `str.lower` / `str.upper`
are modelled by ASCII case mapping, and the regex word class `\w` by
`[a-zA-Z0-9_]`.  A missing (NaN) description is modelled as `none`; Python's
`str(nan)` renders it as the text "nan". -/

/-- ASCII lower-casing of one character (Python `str.lower` on ASCII text). -/
def lowerChar (c : Char) : Char :=
  if 'A' ≤ c ∧ c ≤ 'Z' then Char.ofNat (c.toNat + 32) else c

/-- ASCII upper-casing of one character (Python `str.upper` on ASCII text). -/
def upperChar (c : Char) : Char :=
  if 'a' ≤ c ∧ c ≤ 'z' then Char.ofNat (c.toNat - 32) else c

/-- Python `s.lower()` on ASCII text. -/
def lowerStr (s : String) : String := String.mk (s.data.map lowerChar)

/-- Python `s.upper()` on ASCII text. -/
def upperStr (s : String) : String := String.mk (s.data.map upperChar)

/-- Match a literal `w` against the front of `l`, returning the rest on success. -/
def headMatch : List Char → List Char → Option (List Char)
  | [], l => some l
  | _ :: _, [] => none
  | c :: w, x :: l => if c = x then headMatch w l else none

/-- Plain substring test: Python's `needle in hay` / `str.contains(..., regex irrelevant)`. -/
def containsSub (w : List Char) : List Char → Bool
  | [] => (headMatch w []).isSome
  | c :: rest => (headMatch w (c :: rest)).isSome || containsSub w rest

/-- Case-insensitive substring test: pandas `str.contains(needle, case=False)`. -/
def containsCI (hay needle : String) : Bool :=
  containsSub (lowerStr needle).data (lowerStr hay).data

/-- Substring test after upper-casing the haystack: Python `needle in hay.upper()`. -/
def containsUpper (hay : String) (needle : String) : Bool :=
  containsSub needle.data (upperStr hay).data

/-- Membership in the regex word class `\w` (ASCII). -/
def isWordChar (c : Char) : Bool :=
  (('a' ≤ c ∧ c ≤ 'z') ∨ ('A' ≤ c ∧ c ≤ 'Z') ∨ ('0' ≤ c ∧ c ≤ '9') ∨ c = '_' : Prop)

/-- A `\b` boundary holds before the match if there is no preceding word char. -/
def boundaryStart : Option Char → Bool
  | none => true
  | some c => !(isWordChar c)

/-- A `\b` boundary holds after the match if no word char follows. -/
def boundaryEnd : List Char → Bool
  | [] => true
  | c :: _ => !(isWordChar c)

/-- Does literal `w` (first and last chars word chars) match at this position,
with `\b` boundaries on both sides?  `prev` is the character just before. -/
def hitHere (w l : List Char) (prev : Option Char) : Bool :=
  boundaryStart prev &&
    (match headMatch w l with
     | some rest => boundaryEnd rest
     | none => false)

/-- Scan `l` for a `\b w \b` match (re.search semantics). -/
def wordHitFrom (w : List Char) : Option Char → List Char → Bool
  | prev, [] => hitHere w [] prev
  | prev, c :: rest => hitHere w (c :: rest) prev || wordHitFrom w (some c) rest

/-- `re.search(r"\b" + w + r"\b", s)` for a literal word/phrase `w`. -/
def wordMatch (w : String) (s : String) : Bool := wordHitFrom w.data none s.data

/-- `CATEGORY_RULES` from src/categorize.py.  Each regex alternation of
word-bounded literals is expanded into its list of literals
(`\bsuppl(y|ies)\b` is the two words "supply" and "supplies"). -/
def CATEGORY_RULES : List (List String × String) :=
  [(["rent"], "Rent"),
   (["payroll", "gusto"], "Payroll"),
   (["stripe", "square", "processing fee"], "Payment Processing"),
   (["google ads", "meta ads", "facebook ads"], "Marketing"),
   (["aws", "amazon web services", "cloud"], "Cloud/Hosting"),
   (["comcast", "internet", "phone"], "Utilities"),
   (["adobe", "o365", "microsoft", "software"], "Software Subscriptions"),
   (["uber", "lyft", "taxi"], "Travel"),
   (["office depot", "staples", "supply", "supplies"], "Office Supplies"),
   (["bank fee", "service fee", "charge"], "Bank Fees"),
   (["invoice", "payment", "ach", "deposit"], "Revenue/Payments")]

/-- Does one rule's pattern match the (already lower-cased) description? -/
def ruleHits (ws : List String) (low : String) : Bool := ws.any (fun w => wordMatch w low)

/-- The category assigned by the rule loop of `categorize_transactions`: start at
"Other", iterate the rules in order, overwrite on every match (last match wins).
A missing description gives NaN under `.str.lower()`, and
`str.contains(..., na=False)` then matches no rule. -/
def categoryOf (desc : Option String) : String :=
  match desc with
  | none => "Other"
  | some s => CATEGORY_RULES.foldl
      (fun acc pr => if ruleHits pr.1 (lowerStr s) then pr.2 else acc) "Other"

/-- Python `str(x)` as applied to a description cell: NaN renders as "nan". -/
def pyStr (desc : Option String) : String :=
  match desc with
  | none => "nan"
  | some s => s

/-- Keep `[a-z0-9\s]`, replace every other character by a space
(`re.sub(r"[^a-z0-9\s]", " ", s)` on the lower-cased string). -/
def keepChar (c : Char) : Char :=
  if ('a' ≤ c ∧ c ≤ 'z') ∨ ('0' ≤ c ∧ c ≤ '9') ∨ c.isWhitespace then c else ' '

/-- Split on whitespace runs, dropping empty tokens (Python `s.split()`). -/
def tokensAux (cur : List Char) : List Char → List (List Char)
  | [] => if cur = [] then [] else [cur.reverse]
  | c :: rest =>
    if c.isWhitespace then
      if cur = [] then tokensAux [] rest else cur.reverse :: tokensAux [] rest
    else tokensAux (c :: cur) rest

/-- Join tokens with single spaces (`" ".join(...)`). -/
def joinSpace : List (List Char) → List Char
  | [] => []
  | [t] => t
  | t :: rest => t ++ ' ' :: joinSpace rest

/-- `_normalize_merchant` from src/categorize.py: lower-case, strip
non-alphanumerics, collapse whitespace, keep the first four tokens. -/
def normalize_merchant (desc : Option String) : String :=
  String.mk (joinSpace ((tokensAux [] ((lowerStr (pyStr desc)).data.map keepChar)).take 4))

/-- Transaction record: `date`, `description` (none = NaN), `amount`. -/
structure Tx where
  date : Date
  description : Option String
  amount : ℚ
  deriving DecidableEq

/-- Categorized transaction: the input row plus `merchant` and `category`. -/
structure CatTx where
  date : Date
  description : Option String
  amount : ℚ
  merchant : String
  category : String
  deriving DecidableEq

/-- One output row of `categorize_transactions`. -/
def catRow (t : Tx) : CatTx :=
  ⟨t.date, t.description, t.amount, normalize_merchant t.description, categoryOf t.description⟩

/-- `categorize_transactions` from src/categorize.py: returns an augmented copy,
adding `merchant` and `category` per row. -/
def categorize_transactions (txs : List Tx) : List CatTx := txs.map catRow

/-! Recurring-transaction detection (src/recurring.py) and the scenario
adjuster (`apply_scenarios` in app.py).

Amount and date cells are total in this model (rows with unparseable dates or
amounts are excluded upstream per the loader contract), so the source's
`dropna(subset=["date", "description", "amount"])` drops exactly the rows
with a missing description. -/

/-- Mean of a list of rationals (`Series.mean`); unused on empty lists. -/
def meanQ (l : List ℚ) : ℚ := l.sum / l.length

/-- Minimum of a list of rationals (`Series.min`); 0 as junk value on []. -/
def minQ (l : List ℚ) : ℚ :=
  match l with
  | [] => 0
  | x :: xs => xs.foldl min x

/-- Maximum of a list of rationals (`Series.max`); 0 as junk value on []. -/
def maxQ (l : List ℚ) : ℚ :=
  match l with
  | [] => 0
  | x :: xs => xs.foldl max x

/-- Ascending sort of rationals. -/
def sortQ (l : List ℚ) : List ℚ := List.insertionSort (fun a b : ℚ => a ≤ b) l

/-- `Series.median`: middle element of the sorted list, or the average of the
two middle elements when the length is even; junk 0 on []. -/
def medianQ (l : List ℚ) : ℚ :=
  let s := sortQ l
  let n := s.length
  if n = 0 then 0
  else if n % 2 = 1 then s.getD (n / 2) 0
  else (s.getD (n / 2 - 1) 0 + s.getD (n / 2) 0) / 2

/-- Timestamp (instant) order on dates. -/
def dateLE (a b : Date) : Prop := toDays a ≤ toDays b

instance : DecidableRel dateLE := fun a b => by unfold dateLE; infer_instance

/-- `Series.sort_values()` on a date column. -/
def sortDates (l : List Date) : List Date := List.insertionSort dateLE l

/-- Number of distinct calendar months touched:
`ds.dt.to_period("M").nunique()`. -/
def uniqueMonths (dates : List Date) : ℕ :=
  (((sortDates dates).map (fun dt => (dt.y, dt.m))).dedup).length

/-- `_infer_frequency` from src/recurring.py.  Layered fallback:
amount stability, then day-of-month proximity, then median gap. -/
def infer_frequency (dates : List Date) (amounts : List ℚ) : String :=
  let ds := sortDates dates
  if ds.length < 2 then "Irregular"
  else
    let months := uniqueMonths dates
    if 2 ≤ amounts.length ∧ 2 ≤ months ∧
        (maxQ amounts - minQ amounts) /
          (if meanQ (amounts.map (fun a => |a|)) = 0 then 1
           else meanQ (amounts.map (fun a => |a|))) ≤ 5 / 100 then "Monthly"
    else
      let dom := ds.map (fun dt => (dt.d : ℚ))
      let domMed := medianQ dom
      let closeRatio := meanQ (dom.map (fun v => if |v - domMed| ≤ 6 then (1 : ℚ) else 0))
      if 2 ≤ months ∧ 6 / 10 ≤ closeRatio then "Monthly"
      else
        let gaps := (ds.zip ds.tail).map (fun pr => (toDays pr.2 : ℚ) - (toDays pr.1 : ℚ))
        if gaps = [] then "Irregular"
        else
          let mg := medianQ gaps
          if 6 ≤ mg ∧ mg ≤ 8 then "Weekly"
          else if 27 ≤ mg ∧ mg ≤ 33 then "Monthly"
          else "Irregular"

/-- `_confidence_from_count` from src/recurring.py. -/
def confidence_from_count (count : ℕ) : String :=
  if 5 ≤ count then "High"
  else if 3 ≤ count then "Medium"
  else "Low"

/-- One row of the recurring-candidates table. -/
structure RecRow where
  description : String
  count : ℕ
  avg_amount : ℚ
  min_amount : ℚ
  max_amount : ℚ
  frequency : String
  confidence : String
  deriving DecidableEq

/-- Python's `round(x, 2)`: round half to even at two decimal places. -/
def roundHalfEven (q : ℚ) : ℤ :=
  let f := ⌊q⌋
  if q - f < 1 / 2 then f
  else if 1 / 2 < q - f then f + 1
  else if f % 2 = 0 then f
  else f + 1

/-- `round(x, 2)` as a rational. -/
def roundQ2 (q : ℚ) : ℚ := (roundHalfEven (q * 100) : ℚ) / 100

/-- The grouping keys of `d.groupby("description")` (rows with a missing
description are dropped; each distinct description appears once). -/
def groupDescs (txs : List Tx) : List String :=
  ((txs.filter (fun t => t.description.isSome)).map (fun t => t.description.getD "")).dedup

/-- The aggregated summary row for one description group: count and
avg/min/max of amount, plus inferred frequency and a confidence label. -/
def groupRow (txs : List Tx) (desc : String) : RecRow :=
  let g := txs.filter (fun t => t.description = some desc)
  let amts := g.map (fun t => t.amount)
  ⟨desc, g.length, meanQ amts, minQ amts, maxQ amts,
    infer_frequency (g.map (fun t => t.date)) amts,
    confidence_from_count g.length⟩

/-- Round the displayed amount columns to two decimals. -/
def roundRow (r : RecRow) : RecRow :=
  { r with
    avg_amount := roundQ2 r.avg_amount,
    min_amount := roundQ2 r.min_amount,
    max_amount := roundQ2 r.max_amount }

/-- `conf_order` mapping with `fillna(3)`. -/
def confRank (conf : String) : ℕ :=
  if conf = "High" then 0
  else if conf = "Medium" then 1
  else if conf = "Low" then 2
  else 3

/-- Sort key of `sort_values(["_conf_rank", "_abs_avg"], ascending=[True, False])`:
confidence rank ascending, then absolute average amount descending. -/
def recLE (a b : RecRow) : Prop :=
  confRank a.confidence < confRank b.confidence ∨
    (confRank a.confidence = confRank b.confidence ∧ |b.avg_amount| ≤ |a.avg_amount|)

instance : DecidableRel recLE := fun a b => by unfold recLE; infer_instance

instance : IsTotal RecRow recLE := by
  constructor
  intro a b
  unfold recLE
  rcases lt_trichotomy (confRank a.confidence) (confRank b.confidence) with h | h | h
  · exact Or.inl (Or.inl h)
  · rcases le_total (|b.avg_amount|) (|a.avg_amount|) with ha | ha
    · exact Or.inl (Or.inr ⟨h, ha⟩)
    · exact Or.inr (Or.inr ⟨h.symm, ha⟩)
  · exact Or.inr (Or.inl h)

instance : IsTrans RecRow recLE := by
  constructor
  intro a b c hab hbc
  unfold recLE at *
  rcases hab with h1 | ⟨h1, h1a⟩ <;> rcases hbc with h2 | ⟨h2, h2a⟩
  · exact Or.inl (by omega)
  · exact Or.inl (by omega)
  · exact Or.inl (by omega)
  · exact Or.inr ⟨by omega, h2a.trans h1a⟩

/-- `find_recurring_transactions` from src/recurring.py: group by description,
aggregate, keep groups with at least `min_count` rows, attach frequency and
confidence, round the amount columns, and sort by (confidence rank asc,
|avg_amount| desc).  The source's unstable quicksort leaves tie order
unspecified; insertion sort realizes the same sort contract. -/
def find_recurring_transactions (txs : List Tx) (min_count : ℕ) : List RecRow :=
  let rows := ((groupDescs txs).map (groupRow txs)).filter (fun r => min_count ≤ r.count)
  List.insertionSort recLE (rows.map roundRow)

/-- Per-row transform of `apply_scenarios`: rows whose description contains
"GOOGLE ADS" case-insensitively get avg_amount scaled by (1 - pct/100). -/
def scenarioRow (reduce_ads_pct : ℕ) (r : RecRow) : RecRow :=
  if containsCI r.description "GOOGLE ADS" then
    { r with avg_amount := r.avg_amount * (1 - (reduce_ads_pct : ℚ) / 100) }
  else r

/-- `apply_scenarios` from app.py: returns the input when it is None or empty;
otherwise a copy in which, when the percentage is positive, every
"GOOGLE ADS" row's avg_amount is scaled by (1 - pct/100). -/
def apply_scenarios (recurring : Option (List RecRow)) (reduce_ads_pct : ℕ) :
    Option (List RecRow) :=
  match recurring with
  | none => none
  | some rows =>
    if rows = [] then some rows
    else if 0 < reduce_ads_pct then some (rows.map (scenarioRow reduce_ads_pct))
    else some rows

/-! Forecasting (src/forecast.py). -/

/-- Absolute day numbers of the transactions. -/
def txDays (txs : List Tx) : List ℕ := txs.map (fun t => toDays t.date)

/-- Minimum of a list of naturals; junk 0 on []. -/
def minNat (l : List ℕ) : ℕ :=
  match l with
  | [] => 0
  | x :: xs => xs.foldl min x

/-- Maximum of a list of naturals; junk 0 on []. -/
def maxNat (l : List ℕ) : ℕ :=
  match l with
  | [] => 0
  | x :: xs => xs.foldl max x

/-- `_daily_net_flow`: net amount per calendar day from the first to the last
transaction day, with missing days filled as 0. -/
def dailyNetFlow (txs : List Tx) : List ℚ :=
  let lo := minNat (txDays txs)
  let hi := maxNat (txDays txs)
  (List.range (hi + 1 - lo)).map
    (fun i => ((txs.filter (fun t => toDays t.date = lo + i)).map (fun t => t.amount)).sum)

/-- The last `n` entries of a list. -/
def lastN (n : ℕ) (l : List ℚ) : List ℚ := l.drop (l.length - n)

/-- Baseline predicted daily net: the last value of `flow.rolling(ma).mean()`
when at least `ma` observations exist, else the mean of the whole series. -/
def baseNet (flow : List ℚ) (ma : ℕ) : ℚ :=
  if ma ≤ flow.length then meanQ (lastN ma flow) else meanQ flow

/-- The latest transaction date (`flow.index.max()`). -/
def lastTxDate (txs : List Tx) : Date :=
  match txs with
  | [] => ⟨1, 1, 1⟩
  | t :: rest =>
    rest.foldl (fun acc x => if toDays acc < toDays x.date then x.date else acc) t.date

/-- `pd.date_range(start, periods=n, freq="D")`. -/
def futureDates : Date → ℕ → List Date
  | _, 0 => []
  | dt, n + 1 => dt :: futureDates (nextDay dt) n

/-- `_safe_dom_date`: clamp the day of month into [1, last day of the month]. -/
def safeDomDate (y m day : ℕ) : Date :=
  ⟨y, m, min (max 1 day) (daysInMonth y m)⟩

/-- `int(median(days))`: truncation toward zero of a non-negative median. -/
def medianDomInt (l : List ℕ) : ℕ :=
  (⌊medianQ (l.map (fun n => (n : ℚ)))⌋).toNat

/-- The scheduled day-of-month for a description (`dom_map`), defaulting to 1
when the description has no history in the transactions. -/
def domFor (txs : List Tx) (desc : String) : ℕ :=
  let hist := txs.filter (fun t => t.description = some desc)
  if hist = [] then 1
  else medianDomInt (hist.map (fun t => t.date.d))

/-- `pd.period_range(start, end, freq="M")` as (year, month) pairs. -/
def monthsRange (start last : Date) : List (ℕ × ℕ) :=
  let a := start.y * 12 + (start.m - 1)
  let b := last.y * 12 + (last.m - 1)
  (List.range (b + 1 - a)).map (fun i => ((a + i) / 12, (a + i) % 12 + 1))

/-- The scheduled instant (absolute day, as an integer) of one monthly
occurrence after the scenario shifts: forward by `delay` days when the
upper-cased description contains "RENT", backward by `invoice` days when it
contains "INVOICE". -/
def shiftedDay (desc : String) (delay invoice : ℕ) (base : Date) : ℤ :=
  let t0 : ℤ := toDays base
  let t1 : ℤ := if containsUpper desc "RENT" = true ∧ 0 < delay then t0 + delay else t0
  if containsUpper desc "INVOICE" = true ∧ 0 < invoice then t1 - invoice else t1

/-- Contribution of one recurring row at future date `x`: one occurrence per
month of the horizon, landing on the (possibly shifted) clamped day-of-month;
an occurrence is added only where its day equals the evaluated index day. -/
def rowContribAt (txs : List Tx) (firstF lastF : Date) (delay invoice : ℕ)
    (row : RecRow) (x : Date) : ℚ :=
  let dom := domFor txs row.description
  ((monthsRange firstF lastF).map
    (fun ym =>
      if shiftedDay row.description delay invoice (safeDomDate ym.1 ym.2 dom) = (toDays x : ℤ)
      then row.avg_amount else 0)).sum

/-- `_schedule_monthly_items` evaluated at one future date `x`: the sum of the
"Monthly" rows' contributions.  (The source would crash on a nonempty monthly
table with an empty future index — `period_range` on NaT; that unreachable
path returns 0 here.) -/
def monthlyAdjAt (txs : List Tx) (recurring : Option (List RecRow))
    (delay invoice : ℕ) (future : List Date) (x : Date) : ℚ :=
  match recurring, future.head?, future.getLast? with
  | some rows, some f, some l =>
    ((rows.filter (fun r => r.frequency = "Monthly")).map
      (fun r => rowContribAt txs f l delay invoice r x)).sum
  | _, _, _ => 0

/-- One row of the daily forecast projection. -/
structure ForecastRow where
  date : Date
  predicted_net : ℚ
  predicted_balance : ℚ
  deriving DecidableEq

/-- The forecast result: current balance, risk metrics, daily projection. -/
structure ForecastResult where
  current_balance : ℚ
  min_balance : Option ℚ
  days_to_negative : Option ℤ
  forecast_df : List ForecastRow
  deriving DecidableEq

/-- Build the projection: per-date predicted net and cumulative balance. -/
def projRows (netAt : Date → ℚ) : ℚ → List Date → List ForecastRow
  | _, [] => []
  | bal, dt :: rest =>
    let n := netAt dt
    ⟨dt, n, bal + n⟩ :: projRows netAt (bal + n) rest

/-- The `days_to_negative` metric: the day difference between the first
projected date with balance strictly below 0 and the first projected date
(`int((neg["date"].iloc[0] - forecast_df["date"].iloc[0]).days)`), or None
when no projected balance is negative. -/
def daysToNegOf (rows : List ForecastRow) : Option ℤ :=
  match rows.filter (fun r => r.predicted_balance < 0), rows with
  | nr :: _, r0 :: _ => some ((toDays nr.date : ℤ) - (toDays r0.date : ℤ))
  | _, _ => none

/-- `forecast_cashflow` from src/forecast.py. -/
def forecast_cashflow (txs : List Tx) (starting_balance : ℚ)
    (horizon_days ma_window : ℕ) (recurring : Option (List RecRow))
    (delay_rent_days invoice_earlier_days : ℕ) : ForecastResult :=
  if txs.isEmpty then ⟨starting_balance, none, none, []⟩
  else
    let flow := dailyNetFlow txs
    let future := futureDates (nextDay (lastTxDate txs)) horizon_days
    let base := baseNet flow ma_window
    let rows := projRows
      (fun x => base + monthlyAdjAt txs recurring delay_rent_days invoice_earlier_days future x)
      starting_balance future
    ⟨roundQ2 starting_balance,
      some (roundQ2 (minQ (rows.map (fun r => r.predicted_balance)))),
      daysToNegOf rows, rows⟩

lemma daysInMonth_pos (y m : ℕ) : 1 ≤ daysInMonth y m := by
  unfold daysInMonth; split_ifs <;> norm_num

lemma daysBeforeMonth_succ (y m : ℕ) (hm : 1 ≤ m) :
    daysBeforeMonth y (m + 1) = daysBeforeMonth y m + daysInMonth y m := by
  unfold daysBeforeMonth
  have h1 : m + 1 - 1 = (m - 1) + 1 := by omega
  have h2 : m - 1 + 1 = m := by omega
  rw [h1, List.range_succ, List.map_append, List.sum_append]
  simp only [List.map_cons, List.map_nil, List.sum_cons, List.sum_nil, add_zero, h2]

lemma daysBeforeMonth_thirteen (y : ℕ) :
    daysBeforeMonth y 13 = 365 + (if leapYear y then 1 else 0) := by
  by_cases hL : leapYear y <;>
    simp [daysBeforeMonth, List.range_succ, daysInMonth, hL]

lemma daysBeforeYearAux (y : ℕ) :
    daysBeforeYear y + (y - 1) / 100 = 365 * (y - 1) + (y - 1) / 4 + (y - 1) / 400 := by
  unfold daysBeforeYear
  omega

lemma daysBeforeYear_succ (u : ℕ) :
    daysBeforeYear (u + 2) = daysBeforeYear (u + 1) + 365 + (if leapYear (u + 1) then 1 else 0) := by
  have hA := daysBeforeYearAux (u + 2)
  have hB := daysBeforeYearAux (u + 1)
  rw [show u + 2 - 1 = u + 1 from rfl] at hA
  rw [show u + 1 - 1 = u from rfl] at hB
  rw [Nat.succ_div u 4, Nat.succ_div u 100, Nat.succ_div u 400] at hA
  unfold leapYear
  split_ifs at hA ⊢ <;> omega

lemma toDays_nextDay (dt : Date) (h : ValidDate dt) : toDays (nextDay dt) = toDays dt + 1 := by
  obtain ⟨hy, hm1, hm2, hd1, hd2⟩ := h
  unfold nextDay
  by_cases hlt : dt.d < daysInMonth dt.y dt.m
  · rw [if_pos hlt]; unfold toDays; dsimp only; omega
  · rw [if_neg hlt]
    have hdim : dt.d = daysInMonth dt.y dt.m := by omega
    by_cases hm : dt.m < 12
    · rw [if_pos hm]
      unfold toDays
      dsimp only
      rw [daysBeforeMonth_succ dt.y dt.m hm1]
      omega
    · rw [if_neg hm]
      have hm12 : dt.m = 12 := by omega
      unfold toDays
      dsimp only
      obtain ⟨u, hu⟩ : ∃ u, dt.y = u + 1 := ⟨dt.y - 1, by omega⟩
      have hthir : daysBeforeMonth dt.y 13 = daysBeforeMonth dt.y 12 + daysInMonth dt.y 12 :=
        daysBeforeMonth_succ dt.y 12 (by norm_num)
      have h13 := daysBeforeMonth_thirteen dt.y
      have hdim12 : daysInMonth dt.y 12 = 31 := by simp [daysInMonth]
      have hbm1 : ∀ z : ℕ, daysBeforeMonth z 1 = 0 := by
        intro z; simp [daysBeforeMonth]
      rw [hm12] at hdim
      rw [hu] at hthir h13 hdim12 hdim ⊢
      have hsucc : daysBeforeYear (u + 1 + 1) =
          daysBeforeYear (u + 1) + 365 + (if leapYear (u + 1) then 1 else 0) :=
        daysBeforeYear_succ u
      rw [hm12, hbm1]
      by_cases hL : leapYear (u + 1) <;>
        simp only [hL, if_true, if_false] at hsucc h13 <;> omega

lemma nextDay_valid (dt : Date) (h : ValidDate dt) : ValidDate (nextDay dt) := by
  obtain ⟨hy, hm1, hm2, hd1, hd2⟩ := h
  have hpos := daysInMonth_pos
  unfold nextDay ValidDate
  by_cases hlt : dt.d < daysInMonth dt.y dt.m
  · rw [if_pos hlt]
    dsimp only
    exact ⟨hy, hm1, hm2, by omega, by omega⟩
  · rw [if_neg hlt]
    by_cases hm : dt.m < 12
    · rw [if_pos hm]
      dsimp only
      exact ⟨hy, by omega, by omega, le_refl 1, hpos _ _⟩
    · rw [if_neg hm]
      dsimp only
      exact ⟨by omega, le_refl 1, by norm_num, le_refl 1, hpos _ _⟩

lemma getLast?_cons_isSome {α : Type} (x : α) (xs : List α) :
    ((x :: xs).getLast?).isSome := by
  induction xs generalizing x with
  | nil => rfl
  | cons y ys ih => rw [List.getLast?_cons_cons]; exact ih y

lemma foldl_overwrite {α : Type} (p : α → Bool) (lbl : α → String) :
    ∀ (rules : List α) (acc : String),
      rules.foldl (fun a r => if p r then lbl r else a) acc =
        (((rules.filter (fun r => p r)).getLast?).map lbl).getD acc := by
  intro rules
  induction rules with
  | nil => intro acc; simp
  | cons r rs ih =>
    intro acc
    simp only [List.foldl_cons, List.filter_cons]
    by_cases hp : p r = true
    · rw [ih, if_pos hp, if_pos hp]
      cases hfil : rs.filter (fun x => p x) with
      | nil => simp
      | cons x xs =>
        rw [List.getLast?_cons_cons]
        have hsome : ((x :: xs).getLast?).isSome := getLast?_cons_isSome x xs
        obtain ⟨v, hv⟩ := Option.isSome_iff_exists.mp hsome
        rw [hv]
        simp
    · rw [ih, if_neg hp, if_neg hp]

lemma projRows_map_date (netAt : Date → ℚ) :
    ∀ (ds : List Date) (bal : ℚ), (projRows netAt bal ds).map (fun r => r.date) = ds
  | [], _ => rfl
  | dt :: rest, bal => by
    show ((⟨dt, netAt dt, bal + netAt dt⟩ : ForecastRow) ::
        projRows netAt (bal + netAt dt) rest).map (fun r => r.date) = dt :: rest
    rw [List.map_cons]
    exact congrArg (List.cons dt) (projRows_map_date netAt rest (bal + netAt dt))

lemma projRows_length (netAt : Date → ℚ) (ds : List Date) (bal : ℚ) :
    (projRows netAt bal ds).length = ds.length := by
  have h := congrArg List.length (projRows_map_date netAt ds bal)
  simpa using h

lemma futureDates_toDays :
    ∀ (n : ℕ) (dt : Date), ValidDate dt →
      (futureDates dt n).map (fun x => toDays x) =
        (List.range n).map (fun i => toDays dt + i)
  | 0, _, _ => rfl
  | n + 1, dt, h => by
    have ih := futureDates_toDays n (nextDay dt) (nextDay_valid dt h)
    have hnd := toDays_nextDay dt h
    show (dt :: futureDates (nextDay dt) n).map (fun x => toDays x) = _
    rw [List.map_cons, ih, hnd, List.range_succ_eq_map, List.map_cons, List.map_map]
    congr 1
    exact List.map_congr_left (fun i _ => by simp only [Function.comp_apply]; omega)

lemma foldl_maxDate_mem :
    ∀ (l : List Tx) (a : Date),
      l.foldl (fun acc x => if toDays acc < toDays x.date then x.date else acc) a = a ∨
        l.foldl (fun acc x => if toDays acc < toDays x.date then x.date else acc) a ∈
          l.map (fun t => t.date)
  | [], _ => Or.inl rfl
  | x :: xs, a => by
    rw [List.foldl_cons]
    rcases foldl_maxDate_mem xs (if toDays a < toDays x.date then x.date else a) with h | h
    · rw [h]
      by_cases hc : toDays a < toDays x.date
      · rw [if_pos hc]
        exact Or.inr (by simp)
      · rw [if_neg hc]
        exact Or.inl rfl
    · exact Or.inr (List.mem_cons_of_mem _ h)

lemma lastTxDate_mem (txs : List Tx) (hne : txs ≠ []) :
    lastTxDate txs ∈ txs.map (fun t => t.date) := by
  cases txs with
  | nil => exact absurd rfl hne
  | cons t rest =>
    unfold lastTxDate
    dsimp only
    rcases foldl_maxDate_mem rest t.date with h | h
    · rw [h]; simp
    · exact List.mem_cons_of_mem _ h

lemma lastTxDate_valid (txs : List Tx) (hne : txs ≠ [])
    (hval : ∀ t ∈ txs, ValidDate t.date) : ValidDate (lastTxDate txs) := by
  have h := lastTxDate_mem txs hne
  obtain ⟨t, ht, heq⟩ := List.mem_map.mp h
  exact heq ▸ hval t ht

lemma findIdx?_go_none {α : Type} (p : α → Bool) :
    ∀ (l : List α) (s : ℕ), List.findIdx? p l s = none → l.filter p = []
  | [], _, _ => rfl
  | x :: xs, s, h => by
    rw [List.findIdx?_cons] at h
    by_cases hp : p x = true
    · rw [if_pos hp] at h; exact absurd h (by simp)
    · rw [if_neg hp] at h
      rw [List.filter_cons, if_neg hp]
      exact findIdx?_go_none p xs (s + 1) h

lemma findIdx?_go_some {α : Type} (p : α → Bool) :
    ∀ (l : List α) (s i : ℕ), List.findIdx? p l s = some i →
      s ≤ i ∧ i - s < l.length ∧ (l.filter p).head? = l[i - s]?
  | [], s, i, h => by simp [List.findIdx?] at h
  | x :: xs, s, i, h => by
    rw [List.findIdx?_cons] at h
    by_cases hp : p x = true
    · rw [if_pos hp] at h
      have hi : s = i := by simpa using h
      subst hi
      refine ⟨le_refl s, by simp, ?_⟩
      rw [List.filter_cons, if_pos hp]
      simp
    · rw [if_neg hp] at h
      obtain ⟨hs, hlt, hhead⟩ := findIdx?_go_some p xs (s + 1) i h
      refine ⟨by omega, by simp; omega, ?_⟩
      rw [List.filter_cons, if_neg hp, hhead,
        show i - s = (i - (s + 1)) + 1 by omega, List.getElem?_cons_succ]

lemma dtn_eq_findIdx (rows : List ForecastRow) (t0 : ℕ)
    (hmap : rows.map (fun r => toDays r.date) =
      (List.range rows.length).map (fun i => t0 + i)) :
    daysToNegOf rows =
      (rows.findIdx? (fun r => r.predicted_balance < 0)).map (fun i => (i : ℤ)) := by
  have hti : ∀ j (hj : j < rows.length), toDays (rows.get ⟨j, hj⟩).date = t0 + j := by
    intro j hj
    have h := congrArg (fun l => l[j]?) hmap
    simp only [List.getElem?_map, List.getElem?_eq_getElem hj,
      List.getElem?_range (by simpa using hj), Option.map_some] at h
    simpa using h
  cases hf : rows.findIdx? (fun r => r.predicted_balance < 0) with
  | none =>
    have hfil := findIdx?_go_none _ rows 0 hf
    unfold daysToNegOf
    rw [hfil]
    cases rows <;> rfl
  | some i =>
    obtain ⟨_, hlt, hhead⟩ := findIdx?_go_some _ rows 0 i hf
    simp only [Nat.sub_zero] at hlt hhead
    obtain ⟨r0, rest, hrows⟩ : ∃ r0 rest, rows = r0 :: rest := by
      cases hr : rows with
      | nil => rw [hr] at hlt; simp at hlt
      | cons a b => exact ⟨a, b, rfl⟩
    subst hrows
    rw [List.getElem?_eq_getElem hlt] at hhead
    obtain ⟨tl, hfil⟩ : ∃ tl,
        (r0 :: rest).filter (fun r => r.predicted_balance < 0) =
          (r0 :: rest).get ⟨i, hlt⟩ :: tl := by
      cases hfl : (r0 :: rest).filter (fun r => r.predicted_balance < 0) with
      | nil => rw [hfl] at hhead; simp at hhead
      | cons a b =>
        rw [hfl] at hhead
        simp only [List.head?_cons, Option.some_inj] at hhead
        refine ⟨b, ?_⟩
        rw [hhead]
        rfl
    have hvi : toDays ((r0 :: rest).get ⟨i, hlt⟩).date = t0 + i := hti i hlt
    have hv0 : toDays r0.date = t0 + 0 := hti 0 (by simp)
    unfold daysToNegOf
    rw [hfil]
    show some ((toDays ((r0 :: rest).get ⟨i, hlt⟩).date : ℤ) - (toDays r0.date : ℤ)) =
      some (i : ℤ)
    rw [hvi, hv0]
    congr 1
    push_cast
    ring

lemma not_isEmpty (txs : List Tx) (hne : txs ≠ []) : ¬ (txs.isEmpty = true) := by
  simpa [List.isEmpty_iff] using hne

lemma projRows_map_toDays (netAt : Date → ℚ) (ds : List Date) (bal : ℚ) :
    (projRows netAt bal ds).map (fun r => toDays r.date) = ds.map (fun x => toDays x) := by
  have h := projRows_map_date netAt ds bal
  calc (projRows netAt bal ds).map (fun r => toDays r.date)
      = ((projRows netAt bal ds).map (fun r => r.date)).map (fun x => toDays x) := by
        rw [List.map_map]; rfl
    _ = ds.map (fun x => toDays x) := by rw [h]

lemma forecast_rows_eq (txs : List Tx) (hne : txs ≠ []) (sb : ℚ) (horizon ma : ℕ)
    (recurring : Option (List RecRow)) (delay invoice : ℕ) :
    (forecast_cashflow txs sb horizon ma recurring delay invoice).forecast_df =
      projRows
        (fun x => baseNet (dailyNetFlow txs) ma +
          monthlyAdjAt txs recurring delay invoice
            (futureDates (nextDay (lastTxDate txs)) horizon) x)
        sb (futureDates (nextDay (lastTxDate txs)) horizon) := by
  unfold forecast_cashflow
  rw [if_neg (not_isEmpty txs hne)]

lemma forecast_dtn_eq (txs : List Tx) (hne : txs ≠ []) (sb : ℚ) (horizon ma : ℕ)
    (recurring : Option (List RecRow)) (delay invoice : ℕ) :
    (forecast_cashflow txs sb horizon ma recurring delay invoice).days_to_negative =
      daysToNegOf (forecast_cashflow txs sb horizon ma recurring delay invoice).forecast_df := by
  unfold forecast_cashflow
  rw [if_neg (not_isEmpty txs hne)]

lemma forecast_map_days (txs : List Tx) (hne : txs ≠ [])
    (hval : ∀ t ∈ txs, ValidDate t.date) (sb : ℚ) (horizon ma : ℕ)
    (recurring : Option (List RecRow)) (delay invoice : ℕ) :
    (forecast_cashflow txs sb horizon ma recurring delay invoice).forecast_df.map
        (fun r => toDays r.date) =
      (List.range horizon).map (fun i => toDays (lastTxDate txs) + 1 + i) := by
  rw [forecast_rows_eq txs hne sb horizon ma recurring delay invoice,
    projRows_map_toDays,
    futureDates_toDays horizon (nextDay (lastTxDate txs))
      (nextDay_valid _ (lastTxDate_valid txs hne hval)),
    toDays_nextDay _ (lastTxDate_valid txs hne hval)]

lemma projRows_head (netAt : Date → ℚ) (bal : ℚ) (dt : Date) (ds : List Date) :
    (projRows netAt bal (dt :: ds)).head? =
      some ⟨dt, netAt dt, bal + netAt dt⟩ := rfl

/-- Claim C9: for every non-empty transaction set (with well-formed dates) the
forecast's daily projection has exactly `horizon_days` rows, its dates are the
consecutive calendar days starting the day after the latest transaction date,
and it is strictly increasing in date. -/
theorem c9_projection_consecutive (txs : List Tx) (hne : txs ≠ [])
    (hval : ∀ t ∈ txs, ValidDate t.date) (sb : ℚ) (horizon ma : ℕ)
    (recurring : Option (List RecRow)) (delay invoice : ℕ) :
    (forecast_cashflow txs sb horizon ma recurring delay invoice).forecast_df.length =
        horizon ∧
    (forecast_cashflow txs sb horizon ma recurring delay invoice).forecast_df.map
        (fun r => toDays r.date) =
      (List.range horizon).map (fun i => toDays (lastTxDate txs) + 1 + i) ∧
    List.Pairwise (fun a b => toDays a.date < toDays b.date)
      (forecast_cashflow txs sb horizon ma recurring delay invoice).forecast_df ∧
    ∀ r0, (forecast_cashflow txs sb horizon ma recurring delay invoice).forecast_df.head? =
        some r0 → r0.date = nextDay (lastTxDate txs) := by
  have hmap := forecast_map_days txs hne hval sb horizon ma recurring delay invoice
  refine ⟨?_, hmap, ?_, ?_⟩
  · have h := congrArg List.length hmap
    simpa using h
  · have h : List.Pairwise (fun a b : ℕ => a < b)
        ((forecast_cashflow txs sb horizon ma recurring delay invoice).forecast_df.map
          (fun r => toDays r.date)) := by
      rw [hmap, List.pairwise_map]
      exact (List.pairwise_lt_range horizon).imp (fun h => by omega)
    rw [List.pairwise_map] at h
    exact h
  · intro r0 h0
    rw [forecast_rows_eq txs hne sb horizon ma recurring delay invoice] at h0
    cases horizon with
    | zero => simp [futureDates, projRows] at h0
    | succ n =>
      rw [show futureDates (nextDay (lastTxDate txs)) (n + 1) =
          nextDay (lastTxDate txs) ::
            futureDates (nextDay (nextDay (lastTxDate txs))) n from rfl,
        projRows_head, Option.some_inj] at h0
      rw [← h0]

/-- Claim C1: for every non-empty transaction set, `days_to_negative` equals
the index (day offset from the first forecast day) of the first projection row
whose predicted balance is strictly below 0, and is None when no row in the
horizon has a negative balance. -/
theorem c1_days_to_negative (txs : List Tx) (hne : txs ≠ [])
    (hval : ∀ t ∈ txs, ValidDate t.date) (sb : ℚ) (horizon ma : ℕ)
    (recurring : Option (List RecRow)) (delay invoice : ℕ) :
    (forecast_cashflow txs sb horizon ma recurring delay invoice).days_to_negative =
      ((forecast_cashflow txs sb horizon ma recurring delay invoice).forecast_df.findIdx?
        (fun r => r.predicted_balance < 0)).map (fun i => (i : ℤ)) := by
  have hmap := forecast_map_days txs hne hval sb horizon ma recurring delay invoice
  have hlen :
      (forecast_cashflow txs sb horizon ma recurring delay invoice).forecast_df.length =
        horizon := by
    have h := congrArg List.length hmap
    simpa using h
  have hmap2 :
      (forecast_cashflow txs sb horizon ma recurring delay invoice).forecast_df.map
          (fun r => toDays r.date) =
        (List.range
          (forecast_cashflow txs sb horizon ma recurring delay invoice).forecast_df.length).map
          (fun i => (toDays (lastTxDate txs) + 1) + i) := by
    rw [hlen]
    exact hmap
  rw [forecast_dtn_eq txs hne sb horizon ma recurring delay invoice]
  exact dtn_eq_findIdx _ _ hmap2

/-- Claim C6: on the empty transaction set the forecast returns, without
error, an empty projection, the provided starting balance unchanged as the
current balance, and null risk metrics. -/
theorem c6_empty_input (sb : ℚ) (horizon ma : ℕ) (recurring : Option (List RecRow))
    (delay invoice : ℕ) :
    forecast_cashflow [] sb horizon ma recurring delay invoice =
      ⟨sb, none, none, []⟩ := rfl

/-- Claim C4 (amended): the scalar outputs `current_balance` and `min_balance`
are rounded to 2 decimal places at the result boundary; the projection rows
(see the counterexample) are not. -/
theorem c4_scalar_rounding (txs : List Tx) (hne : txs ≠ []) (sb : ℚ) (horizon ma : ℕ)
    (recurring : Option (List RecRow)) (delay invoice : ℕ) :
    (forecast_cashflow txs sb horizon ma recurring delay invoice).current_balance =
        roundQ2 sb ∧
    (forecast_cashflow txs sb horizon ma recurring delay invoice).min_balance =
      some (roundQ2 (minQ
        ((forecast_cashflow txs sb horizon ma recurring delay invoice).forecast_df.map
          (fun r => r.predicted_balance)))) := by
  constructor
  · unfold forecast_cashflow
    rw [if_neg (not_isEmpty txs hne)]
  · unfold forecast_cashflow
    rw [if_neg (not_isEmpty txs hne)]

/-- Claim C10: when a monthly item's description contains both "RENT" and
"INVOICE" (case-insensitively) and both scenario knobs are positive, the two
shifts compose on the same occurrence: its scheduled instant is the clamped
day-of-month date moved by (delay - earlier) days; and the occurrence
contributes only at an index date equal to that shifted instant, so shifted
occurrences outside the horizon are dropped. -/
theorem c10_rent_invoice_shift (desc : String) (d e : ℕ)
    (hR : containsUpper desc "RENT" = true) (hI : containsUpper desc "INVOICE" = true)
    (hd : 0 < d) (he : 0 < e) :
    (∀ base : Date, shiftedDay desc d e base = (toDays base : ℤ) + d - e) ∧
    (∀ (txs : List Tx) (f l : Date) (row : RecRow) (x : Date), row.description = desc →
      rowContribAt txs f l d e row x =
        ((monthsRange f l).map (fun ym =>
          if (toDays (safeDomDate ym.1 ym.2 (domFor txs desc)) : ℤ) + d - e = (toDays x : ℤ)
          then row.avg_amount else 0)).sum) ∧
    (∀ (txs : List Tx) (f l : Date) (row : RecRow) (x : Date), row.description = desc →
      (toDays x : ℤ) ∉ (monthsRange f l).map (fun ym =>
          (toDays (safeDomDate ym.1 ym.2 (domFor txs desc)) : ℤ) + d - e) →
      rowContribAt txs f l d e row x = 0) := by
  have h1 : ∀ base : Date, shiftedDay desc d e base = (toDays base : ℤ) + d - e := by
    intro base
    show (if containsUpper desc "INVOICE" = true ∧ 0 < e
          then (if containsUpper desc "RENT" = true ∧ 0 < d
                then (toDays base : ℤ) + d else (toDays base : ℤ)) - e
          else (if containsUpper desc "RENT" = true ∧ 0 < d
                then (toDays base : ℤ) + d else (toDays base : ℤ))) =
        (toDays base : ℤ) + d - e
    rw [if_pos ⟨hI, he⟩, if_pos ⟨hR, hd⟩]
  have h2 : ∀ (txs : List Tx) (f l : Date) (row : RecRow) (x : Date),
      row.description = desc →
      rowContribAt txs f l d e row x =
        ((monthsRange f l).map (fun ym =>
          if (toDays (safeDomDate ym.1 ym.2 (domFor txs desc)) : ℤ) + d - e = (toDays x : ℤ)
          then row.avg_amount else 0)).sum := by
    intro txs f l row x hdesc
    unfold rowContribAt
    rw [hdesc]
    dsimp only
    congr 1
    exact List.map_congr_left (fun ym _ => by simp only [h1])
  refine ⟨h1, h2, ?_⟩
  intro txs f l row x hdesc hnot
  rw [h2 txs f l row x hdesc]
  apply List.sum_eq_zero
  intro q hq
  obtain ⟨ym, hym, hqe⟩ := List.mem_map.mp hq
  rw [← hqe, if_neg]
  intro heq
  exact hnot (List.mem_map.mpr ⟨ym, hym, heq⟩)

lemma meanQ_zero_all_zero (l : List ℚ) (hne : l ≠ [])
    (h : meanQ (l.map (fun a => |a|)) = 0) : ∀ x ∈ l, x = 0 := by
  intro x hx
  have hlen0 : (l.map (fun a => |a|)).length = l.length := List.length_map _ _
  have hL : ((l.length : ℚ)) ≠ 0 := by
    have hpos := List.length_pos.mpr hne
    exact_mod_cast Nat.pos_iff_ne_zero.mp hpos
  have hsum : (l.map (fun a => |a|)).sum = 0 := by
    unfold meanQ at h
    rw [hlen0] at h
    rcases div_eq_zero_iff.mp h with h0 | h0
    · exact h0
    · exact absurd h0 hL
  have hnn : ∀ y ∈ l.map (fun a => |a|), 0 ≤ y := by
    intro y hy
    obtain ⟨a, _, rfl⟩ := List.mem_map.mp hy
    exact abs_nonneg a
  have hle : |x| ≤ (l.map (fun a => |a|)).sum :=
    List.single_le_sum hnn _ (List.mem_map.mpr ⟨x, hx, rfl⟩)
  rw [hsum] at hle
  exact abs_eq_zero.mp (le_antisymm hle (abs_nonneg x))

lemma foldl_max_zero : ∀ (xs : List ℚ), (∀ x ∈ xs, x = 0) → xs.foldl max 0 = 0
  | [], _ => rfl
  | x :: xs, h => by
    rw [List.foldl_cons, h x (by simp), max_self]
    exact foldl_max_zero xs (fun y hy => h y (by simp [hy]))

lemma foldl_min_zero : ∀ (xs : List ℚ), (∀ x ∈ xs, x = 0) → xs.foldl min 0 = 0
  | [], _ => rfl
  | x :: xs, h => by
    rw [List.foldl_cons, h x (by simp), min_self]
    exact foldl_min_zero xs (fun y hy => h y (by simp [hy]))

lemma maxQ_all_zero (l : List ℚ) (h : ∀ x ∈ l, x = 0) : maxQ l = 0 := by
  cases l with
  | nil => rfl
  | cons x xs =>
    unfold maxQ
    rw [h x (by simp)]
    exact foldl_max_zero xs (fun y hy => h y (by simp [hy]))

lemma minQ_all_zero (l : List ℚ) (h : ∀ x ∈ l, x = 0) : minQ l = 0 := by
  cases l with
  | nil => rfl
  | cons x xs =>
    unfold minQ
    rw [h x (by simp)]
    exact foldl_min_zero xs (fun y hy => h y (by simp [hy]))

lemma scenarioRow_zero (r : RecRow) : scenarioRow 0 r = r := by
  unfold scenarioRow
  split_ifs with h
  · cases r with
    | mk dsc cnt avg mn mx fr cf => simp
  · rfl

/-- Claim C2: the category loop has last-match-wins overwrite semantics: a
description's category is the label of the last rule in `CATEGORY_RULES`
whose pattern matches it (so a description matching several rules resolves to
the latest one), and "Other" when no rule matches; in particular a
description matching both the "software" and "bank fee" patterns gets
"Bank Fees". -/
theorem c2_last_match_wins :
    (∀ s : String, categoryOf (some s) =
      (((CATEGORY_RULES.filter (fun pr => ruleHits pr.1 (lowerStr s))).getLast?).map
        (fun pr => pr.2)).getD "Other") ∧
    categoryOf (some "software bank fee") = "Bank Fees" := by
  constructor
  · intro s
    unfold categoryOf
    exact foldl_overwrite (fun pr => ruleHits pr.1 (lowerStr s)) (fun pr => pr.2)
      CATEGORY_RULES "Other"
  · decide

/-- Claim C3: a group with at least 2 dated occurrences and at least 2
amounts, spanning at least 2 distinct calendar months, whose amount spread
(max - min) over the mean absolute amount is at most 5%, is classified
"Monthly" by the amount-stability rule, regardless of day-of-month spread. -/
theorem c3_amount_stability (dates : List Date) (amounts : List ℚ)
    (hd : 2 ≤ dates.length) (ha : 2 ≤ amounts.length)
    (hm : 2 ≤ uniqueMonths dates)
    (hs : (maxQ amounts - minQ amounts) / meanQ (amounts.map (fun a => |a|)) ≤ 5 / 100) :
    infer_frequency dates amounts = "Monthly" := by
  have hlen : (sortDates dates).length = dates.length := by
    unfold sortDates
    exact List.length_insertionSort _ _
  have hratio : (maxQ amounts - minQ amounts) /
      (if meanQ (amounts.map (fun a => |a|)) = 0 then 1
       else meanQ (amounts.map (fun a => |a|))) ≤ 5 / 100 := by
    by_cases hz : meanQ (amounts.map (fun a => |a|)) = 0
    · rw [if_pos hz]
      have hne : amounts ≠ [] := by
        intro h0
        rw [h0] at ha
        simp at ha
      have hall := meanQ_zero_all_zero amounts hne hz
      rw [maxQ_all_zero amounts hall, minQ_all_zero amounts hall]
      norm_num
    · rw [if_neg hz]
      exact hs
  unfold infer_frequency
  dsimp only
  rw [if_neg (by omega : ¬ (sortDates dates).length < 2),
    if_pos ⟨ha, hm, hratio⟩]

/-- Witness for C3: three occurrences across three distinct months with
amounts {1200, 1200, 1215} (within 5% of the mean absolute amount) are
"Monthly" although the days of month 2, 15, 28 spread far beyond 6 days. -/
theorem c3_witness :
    (2 ≤ ([⟨2024, 1, 2⟩, ⟨2024, 2, 15⟩, ⟨2024, 3, 28⟩] : List Date).length ∧
     2 ≤ ([1200, 1200, 1215] : List ℚ).length ∧
     2 ≤ uniqueMonths [⟨2024, 1, 2⟩, ⟨2024, 2, 15⟩, ⟨2024, 3, 28⟩] ∧
     (maxQ [1200, 1200, 1215] - minQ [1200, 1200, 1215]) /
       meanQ (([1200, 1200, 1215] : List ℚ).map (fun a => |a|)) ≤ 5 / 100) ∧
    infer_frequency [⟨2024, 1, 2⟩, ⟨2024, 2, 15⟩, ⟨2024, 3, 28⟩] [1200, 1200, 1215] =
      "Monthly" :=
  ⟨⟨by decide, by decide, by decide, by with_unfolding_all decide⟩,
    c3_amount_stability _ _ (by decide) (by decide) (by decide)
      (by with_unfolding_all decide)⟩

/-- Claim C5: `apply_scenarios` maps the recurring table to a copy where every
row whose description contains "GOOGLE ADS" (case-insensitive) has its
avg_amount scaled by (1 - pct/100) (-1000 at 20% becomes -800), non-matching
rows are unchanged, and a 0% reduction returns values equal to the input. -/
theorem c5_apply_scenarios (rows : List RecRow) (p : ℕ) :
    apply_scenarios (some rows) p = some (rows.map (scenarioRow p)) ∧
    apply_scenarios (some rows) 0 = some rows ∧
    scenarioRow 20 ⟨"GOOGLE ADS", 3, -1000, -1000, -1000, "Monthly", "Medium"⟩ =
      ⟨"GOOGLE ADS", 3, -800, -1000, -1000, "Monthly", "Medium"⟩ ∧
    (∀ r : RecRow, containsCI r.description "GOOGLE ADS" = true →
      (scenarioRow p r).avg_amount = r.avg_amount * (1 - (p : ℚ) / 100)) ∧
    (∀ r : RecRow, containsCI r.description "GOOGLE ADS" = false →
      scenarioRow p r = r) := by
  refine ⟨?_, ?_, by with_unfolding_all decide, ?_, ?_⟩
  · by_cases hr : rows = []
    · subst hr
      simp [apply_scenarios]
    · unfold apply_scenarios
      dsimp only
      rw [if_neg hr]
      by_cases hp : 0 < p
      · rw [if_pos hp]
      · rw [if_neg hp]
        have hp0 : p = 0 := by omega
        subst hp0
        congr 1
        have hmap : rows.map (scenarioRow 0) = rows.map id :=
          List.map_congr_left (fun r _ => scenarioRow_zero r)
        rw [hmap, List.map_id]
  · unfold apply_scenarios
    dsimp only
    by_cases hr : rows = []
    · rw [if_pos hr]
    · rw [if_neg hr, if_neg (by omega : ¬ 0 < 0)]
  · intro r h
    unfold scenarioRow
    rw [if_pos h]
  · intro r h
    unfold scenarioRow
    rw [if_neg (by simp [h])]

/-- Witness for C5: the full pipeline value at a one-row table. -/
theorem c5_witness :
    apply_scenarios
        (some [⟨"GOOGLE ADS", 3, -1000, -1000, -1000, "Monthly", "Medium"⟩]) 20 =
      some [⟨"GOOGLE ADS", 3, -800, -1000, -1000, "Monthly", "Medium"⟩] := by
  rw [(c5_apply_scenarios
    [⟨"GOOGLE ADS", 3, -1000, -1000, -1000, "Monthly", "Medium"⟩] 20).1]
  with_unfolding_all decide

/-- Claim C7: the recurring table is sorted ascending by confidence
strictness (rank High = 0 before Medium = 1 before Low = 2) and, within equal
confidence, descending by the absolute value of avg_amount. -/
theorem c7_recurring_sorted (txs : List Tx) (min_count : ℕ) :
    List.Pairwise
      (fun a b =>
        confRank a.confidence < confRank b.confidence ∨
          (confRank a.confidence = confRank b.confidence ∧
            |b.avg_amount| ≤ |a.avg_amount|))
      (find_recurring_transactions txs min_count) := by
  have h := List.sorted_insertionSort recLE
    ((((groupDescs txs).map (groupRow txs)).filter
      (fun r : RecRow => min_count ≤ r.count)).map roundRow)
  exact h

/-- Counterexample for C8: a transaction with a missing (NaN) description gets
the merchant key "nan" (the text rendering of NaN), not an empty merchant key
as the claim states. -/
theorem c8_counterexample :
    (catRow ⟨⟨2024, 1, 1⟩, none, 0⟩).merchant = "nan" ∧
      (catRow ⟨⟨2024, 1, 1⟩, none, 0⟩).merchant ≠ "" := by decide

/-- Claim C8 (amended): malformed descriptions degrade without error to
category "Other"; an empty description also gets an empty merchant key, but a
missing (NaN) description gets the merchant key "nan". -/
theorem c8_malformed_descriptions (t : Tx) :
    (t.description = some "" →
      (catRow t).category = "Other" ∧ (catRow t).merchant = "") ∧
    (t.description = none →
      (catRow t).category = "Other" ∧ (catRow t).merchant = "nan") := by
  refine ⟨fun h => ?_, fun h => ?_⟩ <;>
    · simp only [catRow, h]
      exact ⟨by decide, by decide⟩

/-- Witness for C8 at concrete malformed rows. -/
theorem c8_witness :
    ((catRow ⟨⟨2024, 1, 1⟩, some "", 0⟩).category = "Other" ∧
      (catRow ⟨⟨2024, 1, 1⟩, some "", 0⟩).merchant = "") ∧
    ((catRow ⟨⟨2024, 1, 2⟩, none, 0⟩).category = "Other" ∧
      (catRow ⟨⟨2024, 1, 2⟩, none, 0⟩).merchant = "nan") :=
  ⟨(c8_malformed_descriptions ⟨⟨2024, 1, 1⟩, some "", 0⟩).1 rfl,
    (c8_malformed_descriptions ⟨⟨2024, 1, 2⟩, none, 0⟩).2 rfl⟩

/-- Counterexample for C4: on a concrete input the projection's predicted_net
values are emitted at full precision (1/3), not rounded to 2 decimals. -/
theorem c4_counterexample :
    ∃ r ∈ (forecast_cashflow [⟨⟨2024, 1, 1⟩, some "A", 1⟩, ⟨⟨2024, 1, 2⟩, some "A", 0⟩,
        ⟨⟨2024, 1, 3⟩, some "A", 0⟩] 0 2 14 none 0 0).forecast_df,
      r.predicted_net ≠ roundQ2 r.predicted_net := by with_unfolding_all decide

/-- Witness for C4 (amended) at a concrete input. -/
theorem c4_witness :
    (forecast_cashflow [⟨⟨2024, 1, 1⟩, some "A", 1⟩, ⟨⟨2024, 1, 2⟩, some "A", 0⟩,
        ⟨⟨2024, 1, 3⟩, some "A", 0⟩] 0 2 14 none 0 0).current_balance = roundQ2 0 ∧
    (forecast_cashflow [⟨⟨2024, 1, 1⟩, some "A", 1⟩, ⟨⟨2024, 1, 2⟩, some "A", 0⟩,
        ⟨⟨2024, 1, 3⟩, some "A", 0⟩] 0 2 14 none 0 0).min_balance =
      some (roundQ2 (minQ
        ((forecast_cashflow [⟨⟨2024, 1, 1⟩, some "A", 1⟩, ⟨⟨2024, 1, 2⟩, some "A", 0⟩,
            ⟨⟨2024, 1, 3⟩, some "A", 0⟩] 0 2 14 none 0 0).forecast_df.map
          (fun r => r.predicted_balance)))) :=
  c4_scalar_rounding _ (by decide) 0 2 14 none 0 0

/-- Witness for C1 at the spec's scenario: starting balance 100, constant
predicted net -50/day (14 days of history at -50, no recurring overlay),
horizon 5: days_to_negative = 2 (balances 50, 0, -50, ...) and
min_balance = 100 - 50 * 5, the horizon-5 instance of 100 - 50 * horizonDays. -/
theorem c1_witness :
    ((forecast_cashflow ((List.range 14).map (fun i => ⟨⟨2024, 1, i + 1⟩, some "X", -50⟩))
        100 5 14 none 0 0).days_to_negative =
      ((forecast_cashflow ((List.range 14).map (fun i => ⟨⟨2024, 1, i + 1⟩, some "X", -50⟩))
          100 5 14 none 0 0).forecast_df.findIdx?
        (fun r => r.predicted_balance < 0)).map (fun i => (i : ℤ))) ∧
    (forecast_cashflow ((List.range 14).map (fun i => ⟨⟨2024, 1, i + 1⟩, some "X", -50⟩))
        100 5 14 none 0 0).days_to_negative = some 2 ∧
    (forecast_cashflow ((List.range 14).map (fun i => ⟨⟨2024, 1, i + 1⟩, some "X", -50⟩))
        100 5 14 none 0 0).min_balance = some (100 - 50 * 5) :=
  ⟨c1_days_to_negative _ (by decide) (by decide) 100 5 14 none 0 0,
    by with_unfolding_all decide, by with_unfolding_all decide⟩

/-- Witness for C9 at a concrete input crossing a month boundary. -/
theorem c9_witness :
    (forecast_cashflow [⟨⟨2024, 1, 31⟩, some "A", 5⟩] 0 3 14 none 0 0).forecast_df.length =
        3 ∧
    (forecast_cashflow [⟨⟨2024, 1, 31⟩, some "A", 5⟩] 0 3 14 none 0 0).forecast_df.map
        (fun r => toDays r.date) =
      (List.range 3).map
        (fun i => toDays (lastTxDate [⟨⟨2024, 1, 31⟩, some "A", 5⟩]) + 1 + i) ∧
    List.Pairwise (fun a b => toDays a.date < toDays b.date)
      (forecast_cashflow [⟨⟨2024, 1, 31⟩, some "A", 5⟩] 0 3 14 none 0 0).forecast_df ∧
    ∀ r0, (forecast_cashflow [⟨⟨2024, 1, 31⟩, some "A", 5⟩] 0 3 14 none 0 0).forecast_df.head? =
        some r0 → r0.date = nextDay (lastTxDate [⟨⟨2024, 1, 31⟩, some "A", 5⟩]) :=
  c9_projection_consecutive _ (by decide) (by decide) 0 3 14 none 0 0

/-- Witness for C10 at a concrete description containing both substrings:
delay 5 and earlier 3 shift the occurrence by 2 days. -/
theorem c10_witness :
    shiftedDay "ACME RENT INVOICE" 5 3 ⟨2024, 2, 1⟩ =
      (toDays (⟨2024, 2, 1⟩ : Date) : ℤ) + 5 - 3 :=
  (c10_rent_invoice_shift "ACME RENT INVOICE" 5 3 (by decide) (by decide)
    (by decide) (by decide)).1 ⟨2024, 2, 1⟩

end Copilot
